import Mathlib

/-!
# Verification of the vnpy event engine (`vnpy/event/engine.py`)

Shallow embedding of the event-driven framework: the `Event` value type,
the subscription table (a Python `defaultdict(list)` modelled as an
insertion-ordered association list from type strings to handler lists),
the registration API (`register`, `unregister`, `register_general`,
`unregister_general`), the queue (`put`), the dispatch loop
(`_run` / `_process`) and the timer loop (`_run_timer`).

Handlers are opaque identity-comparable callables; we model them by an
arbitrary type `H` with decidable equality.  Event payloads (`data: Any`,
defaulting to `None`) are modelled by `Option V`.  Handler invocation is
modelled by the trace of `(handler, event)` invocation pairs the loops
produce, in the order the source performs the calls.
-/

set_option autoImplicit false
set_option linter.unusedSectionVars false

namespace VnpyEvent

/-- `Event` from `engine.py`: a type string plus a data payload
(`data: Any = None`, modelled as `Option V` with `none` for `None`). -/
structure Event (V : Type) where
  type : String
  data : Option V
deriving DecidableEq

/-- `EVENT_TIMER = "eTimer"`. -/
def EVENT_TIMER : String := "eTimer"

/-- `Event.__init__(self, type, data=None)` — the constructor with its
default payload argument. -/
def Event.make {V : Type} (type : String) (data : Option V := none) : Event V :=
  { type := type, data := data }

section Table

variable {H : Type} [DecidableEq H]

/-- Dictionary membership test `type in d` on the `defaultdict`
(membership does not materialize an entry). -/
def hasKey : List (String × List H) → String → Bool
  | [], _ => false
  | p :: ps, t => p.1 = t || hasKey ps t

/-- Dictionary read `d[type]` as a pure lookup: the list stored at the
first entry for `t`, or `[]` when `t` is absent (a fresh `defaultdict`
list is empty). -/
def lookupList : List (String × List H) → String → List H
  | [], _ => []
  | p :: ps, t => if p.1 = t then p.2 else lookupList ps t

/-- In-place mutation of the list object stored at key `t`: replace the
first entry for `t` (no-op when `t` is absent). -/
def setKey : List (String × List H) → String → List H → List (String × List H)
  | [], _, _ => []
  | p :: ps, t, l => if p.1 = t then (p.1, l) :: ps else p :: setKey ps t l

/-- `d.pop(type)`: drop the first entry for `t`. -/
def removeKey : List (String × List H) → String → List (String × List H)
  | [], _ => []
  | p :: ps, t => if p.1 = t then ps else p :: removeKey ps t

end Table

/-- The mutable state of `EventEngine`: timer interval, the FIFO event
queue, the active flag, the per-type handler table `_handlers`
(a `defaultdict(list)`), and the general handler list
`_general_handlers`. -/
structure EngineState (H V : Type) where
  interval : Nat
  queue : List (Event V)
  active : Bool
  handlers : List (String × List H)
  general : List H
deriving DecidableEq

/-- `EventEngine.__init__(self, interval=1)`: empty queue, inactive,
empty tables. -/
def newEngine (H V : Type) (interval : Nat := 1) : EngineState H V :=
  { interval := interval, queue := [], active := false, handlers := [], general := [] }

section Engine

variable {H V : Type} [DecidableEq H] [DecidableEq V]

/-- `EventEngine.register`: `handler_list = self._handlers[type]`
(the `defaultdict` materializes an empty entry when `type` is absent),
then append `handler` unless it is already present. -/
def register (s : EngineState H V) (type : String) (handler : H) : EngineState H V :=
  let m := if hasKey s.handlers type then s.handlers else s.handlers ++ [(type, [])]
  let handler_list := lookupList m type
  let l2 := if handler ∈ handler_list then handler_list else handler_list ++ [handler]
  { s with handlers := setKey m type l2 }

/-- `EventEngine.unregister`: `handler_list = self._handlers[type]`
(materializing an empty entry when absent), remove the first occurrence
of `handler` if present, then `self._handlers.pop(type)` when the list
ended up empty.  (Since `pop` drops the entry whatever list it holds,
updating then popping the entry is popping it directly.) -/
def unregister (s : EngineState H V) (type : String) (handler : H) : EngineState H V :=
  let m := if hasKey s.handlers type then s.handlers else s.handlers ++ [(type, [])]
  let handler_list := lookupList m type
  let l2 := if handler ∈ handler_list then handler_list.erase handler else handler_list
  if l2.isEmpty then { s with handlers := removeKey m type }
  else { s with handlers := setKey m type l2 }

/-- `EventEngine.register_general`: append unless already present. -/
def register_general (s : EngineState H V) (handler : H) : EngineState H V :=
  if handler ∈ s.general then s else { s with general := s.general ++ [handler] }

/-- `EventEngine.unregister_general`: remove the first occurrence if
present, otherwise do nothing. -/
def unregister_general (s : EngineState H V) (handler : H) : EngineState H V :=
  if handler ∈ s.general then { s with general := s.general.erase handler } else s

/-- `EventEngine.put`: `self._queue.put(event)` — unconditional FIFO
enqueue, no check of the active flag. -/
def put (s : EngineState H V) (event : Event V) : EngineState H V :=
  { s with queue := s.queue ++ [event] }

/-- `EventEngine.start`: set the active flag. -/
def start (s : EngineState H V) : EngineState H V :=
  { s with active := true }

/-- `EventEngine.stop`: clear the active flag (after which both loops'
`while self._active` guards fail and the joined threads terminate). -/
def stop (s : EngineState H V) : EngineState H V :=
  { s with active := false }

/-- `EventEngine._process(event)`: the list of handler invocations, in
call order — the handlers registered for `event.type` (guarded by
`if event.type in self._handlers`), then the general handlers (guarded
by `if self._general_handlers`), each called on `event`. -/
def processTrace (s : EngineState H V) (event : Event V) : List (H × Event V) :=
  (if hasKey s.handlers event.type then
    (lookupList s.handlers event.type).map (fun h => (h, event))
  else []) ++
  (if s.general.isEmpty then []
  else s.general.map (fun h => (h, event)))

/-- The invocation trace of the dispatch loop `EventEngine._run` over a
given sequence of dequeued events (the table is not mutated while
dispatching, so each event is processed against the same state). -/
def runTrace (s : EngineState H V) : List (Event V) → List (H × Event V)
  | [] => []
  | e :: rest => processTrace s e ++ runTrace s rest

/-- At most `n` iterations of the dispatch loop `EventEngine._run`:
while the active flag holds, dequeue the next event and process it (an
empty queue is the `Empty` timeout, silently retried); once the flag is
false the loop exits at once.  Returns the final state and the
invocation trace. -/
def runLoop : Nat → EngineState H V → EngineState H V × List (H × Event V)
  | 0, s => (s, [])
  | Nat.succ n, s =>
    if s.active then
      match s.queue with
      | [] => runLoop n s
      | e :: rest =>
        let r := runLoop n { s with queue := rest }
        (r.1, processTrace s e ++ r.2)
    else (s, [])

/-- One wake-up of the timer loop body: `self.put(Event(EVENT_TIMER))` —
enqueue a timer event constructed with only its type. -/
def timerStep (q : List (Event V)) : List (Event V) :=
  q ++ [Event.make EVENT_TIMER]

/-- One iteration of `EventEngine._run_timer`: if the active flag holds,
sleep then enqueue one timer event; otherwise the loop has exited. -/
def timerLoopStep (s : EngineState H V) : EngineState H V :=
  if s.active then { s with queue := timerStep s.queue } else s

/-- At most `n` iterations of the timer loop `EventEngine._run_timer`. -/
def timerLoop : Nat → EngineState H V → EngineState H V
  | 0, s => s
  | Nat.succ n, s => if s.active then timerLoop n { s with queue := timerStep s.queue } else s

end Engine

/-- One call of the subscription API, for reasoning about all reachable
subscription-table states. -/
inductive Op (H : Type) where
  | reg (type : String) (handler : H)
  | unreg (type : String) (handler : H)
  | regGeneral (handler : H)
  | unregGeneral (handler : H)

section Ops

variable {H V : Type} [DecidableEq H] [DecidableEq V]

/-- Apply one subscription call to the engine state. -/
def applyOp (s : EngineState H V) : Op H → EngineState H V
  | .reg t h => register s t h
  | .unreg t h => unregister s t h
  | .regGeneral h => register_general s h
  | .unregGeneral h => unregister_general s h

/-- Apply a sequence of subscription calls, oldest first. -/
def applyOps (s : EngineState H V) (ops : List (Op H)) : EngineState H V :=
  ops.foldl applyOp s

end Ops

/-- The reachable-state invariant of the per-type table: no key maps to
an empty handler list. -/
def noEmptyLists {H : Type} (m : List (String × List H)) : Prop :=
  ∀ p ∈ m, p.2 ≠ []

section Lemmas

variable {H : Type} [DecidableEq H]

theorem lookupList_eq_nil_of_hasKey_eq_false {m : List (String × List H)} {t : String}
    (h : hasKey m t = false) : lookupList m t = [] := by
  induction m with
  | nil => rfl
  | cons p ps ih =>
    simp only [hasKey, Bool.or_eq_false_iff, decide_eq_false_iff_not] at h
    simp only [lookupList, if_neg h.1]
    exact ih h.2

theorem hasKey_eq_true_of_lookupList_ne_nil {m : List (String × List H)} {t : String}
    (h : lookupList m t ≠ []) : hasKey m t = true := by
  by_contra hk
  exact h (lookupList_eq_nil_of_hasKey_eq_false (Bool.eq_false_iff.mpr hk))

theorem lookupList_append_single {m : List (String × List H)} {t : String} {l : List H}
    (h : hasKey m t = false) : lookupList (m ++ [(t, l)]) t = l := by
  induction m with
  | nil => simp [lookupList]
  | cons p ps ih =>
    simp only [hasKey, Bool.or_eq_false_iff, decide_eq_false_iff_not] at h
    simp only [List.cons_append, lookupList, if_neg h.1]
    exact ih h.2

theorem lookupList_append_ne {m : List (String × List H)} {t t' : String} {l : List H}
    (h : t' ≠ t) : lookupList (m ++ [(t, l)]) t' = lookupList m t' := by
  have hne : ¬(t = t') := fun hc => h hc.symm
  induction m with
  | nil => simp only [List.nil_append, lookupList, if_neg hne]
  | cons p ps ih =>
    by_cases hp : p.1 = t'
    · simp [lookupList, hp]
    · simp only [List.cons_append, lookupList, if_neg hp]
      exact ih

theorem setKey_append_single {m : List (String × List H)} {t : String} {l l2 : List H}
    (h : hasKey m t = false) : setKey (m ++ [(t, l)]) t l2 = m ++ [(t, l2)] := by
  induction m with
  | nil => simp [setKey]
  | cons p ps ih =>
    simp only [hasKey, Bool.or_eq_false_iff, decide_eq_false_iff_not] at h
    simp only [List.cons_append, setKey, if_neg h.1]
    exact congrArg (p :: ·) (ih h.2)

theorem removeKey_append_single {m : List (String × List H)} {t : String} {l : List H}
    (h : hasKey m t = false) : removeKey (m ++ [(t, l)]) t = m := by
  induction m with
  | nil => simp [removeKey]
  | cons p ps ih =>
    simp only [hasKey, Bool.or_eq_false_iff, decide_eq_false_iff_not] at h
    simp only [List.cons_append, removeKey, if_neg h.1]
    exact congrArg (p :: ·) (ih h.2)

theorem lookupList_setKey_self {m : List (String × List H)} {t : String} {l : List H}
    (h : hasKey m t = true) : lookupList (setKey m t l) t = l := by
  induction m with
  | nil => simp [hasKey] at h
  | cons p ps ih =>
    by_cases hp : p.1 = t
    · simp [setKey, lookupList, hp]
    · simp only [hasKey, Bool.or_eq_true, decide_eq_true_eq] at h
      simp only [setKey, if_neg hp, lookupList]
      exact ih (h.resolve_left hp)

theorem lookupList_setKey_ne {m : List (String × List H)} {t t' : String} {l : List H}
    (h : t' ≠ t) : lookupList (setKey m t l) t' = lookupList m t' := by
  induction m with
  | nil => rfl
  | cons p ps ih =>
    by_cases hp : p.1 = t
    · have h2 : ¬(p.1 = t') := fun hc => h ((hp.symm.trans hc).symm)
      simp only [setKey, if_pos hp, lookupList, if_neg h2]
    · simp only [setKey, if_neg hp, lookupList]
      by_cases hp' : p.1 = t'
      · rw [if_pos hp', if_pos hp']
      · rw [if_neg hp', if_neg hp']
        exact ih

theorem lookupList_removeKey_ne {m : List (String × List H)} {t t' : String}
    (h : t' ≠ t) : lookupList (removeKey m t) t' = lookupList m t' := by
  induction m with
  | nil => rfl
  | cons p ps ih =>
    by_cases hp : p.1 = t
    · have h2 : ¬(p.1 = t') := fun hc => h ((hp.symm.trans hc).symm)
      simp only [removeKey, if_pos hp, lookupList, if_neg h2]
    · simp only [removeKey, if_neg hp, lookupList]
      by_cases hp' : p.1 = t'
      · simp [hp']
      · rw [if_neg hp', if_neg hp']
        exact ih

theorem setKey_lookupList_self (m : List (String × List H)) (t : String) :
    setKey m t (lookupList m t) = m := by
  induction m with
  | nil => rfl
  | cons p ps ih =>
    by_cases hp : p.1 = t
    · simp only [setKey, lookupList, if_pos hp, Prod.mk.eta]
    · simp only [setKey, lookupList, if_neg hp]
      exact congrArg (p :: ·) ih

theorem setKey_setKey (m : List (String × List H)) (t : String) (l l2 : List H) :
    setKey (setKey m t l) t l2 = setKey m t l2 := by
  induction m with
  | nil => rfl
  | cons p ps ih =>
    by_cases hp : p.1 = t
    · simp [setKey, hp]
    · simp only [setKey, if_neg hp]
      exact congrArg (p :: ·) ih

theorem hasKey_setKey (m : List (String × List H)) (t t' : String) (l : List H) :
    hasKey (setKey m t l) t' = hasKey m t' := by
  induction m with
  | nil => rfl
  | cons p ps ih =>
    by_cases hp : p.1 = t
    · simp [setKey, hasKey, hp]
    · simp only [setKey, if_neg hp, hasKey]
      rw [ih]

theorem hasKey_append_single (m : List (String × List H)) (t : String) (l : List H) :
    hasKey (m ++ [(t, l)]) t = true := by
  induction m with
  | nil => simp [hasKey]
  | cons p ps ih =>
    simp [hasKey, ih]

theorem noEmptyLists_setKey {m : List (String × List H)} {t : String} {l : List H}
    (hm : noEmptyLists m) (hl : l ≠ []) : noEmptyLists (setKey m t l) := by
  induction m with
  | nil => exact hm
  | cons p ps ih =>
    have hm' : noEmptyLists ps := fun q hq => hm q (List.mem_cons_of_mem _ hq)
    by_cases hp : p.1 = t
    · simp only [setKey, if_pos hp]
      intro q hq
      rcases List.mem_cons.mp hq with hq | hq
      · rw [hq]; exact hl
      · exact hm' q hq
    · simp only [setKey, if_neg hp]
      intro q hq
      rcases List.mem_cons.mp hq with hq | hq
      · rw [hq]; exact hm p (List.mem_cons_self p ps)
      · exact ih hm' q hq

theorem noEmptyLists_removeKey {m : List (String × List H)} {t : String}
    (hm : noEmptyLists m) : noEmptyLists (removeKey m t) := by
  induction m with
  | nil => exact hm
  | cons p ps ih =>
    have hm' : noEmptyLists ps := fun q hq => hm q (List.mem_cons_of_mem _ hq)
    by_cases hp : p.1 = t
    · simp only [removeKey, if_pos hp]
      exact hm'
    · simp only [removeKey, if_neg hp]
      intro q hq
      rcases List.mem_cons.mp hq with hq | hq
      · rw [hq]; exact hm p (List.mem_cons_self p ps)
      · exact ih hm' q hq

theorem noEmptyLists_append_singleton {m : List (String × List H)} {t : String} {l : List H}
    (hm : noEmptyLists m) (hl : l ≠ []) : noEmptyLists (m ++ [(t, l)]) := by
  intro q hq
  rcases List.mem_append.mp hq with hq | hq
  · exact hm q hq
  · rw [List.mem_singleton.mp hq]; exact hl

theorem lookupList_ne_nil_of_hasKey {m : List (String × List H)} {t : String}
    (hk : hasKey m t = true) (hm : noEmptyLists m) : lookupList m t ≠ [] := by
  induction m with
  | nil => simp [hasKey] at hk
  | cons p ps ih =>
    by_cases hp : p.1 = t
    · simp only [lookupList, if_pos hp]
      exact hm p (List.mem_cons_self p ps)
    · simp only [lookupList, if_neg hp]
      simp only [hasKey, Bool.or_eq_true, decide_eq_true_eq] at hk
      exact ih (hk.resolve_left hp) (fun q hq => hm q (List.mem_cons_of_mem _ hq))

end Lemmas

section InvLemmas

variable {H V : Type} [DecidableEq H] [DecidableEq V]

theorem noEmptyLists_register (s : EngineState H V) (t : String) (h : H)
    (hm : noEmptyLists s.handlers) : noEmptyLists (register s t h).handlers := by
  by_cases hk : hasKey s.handlers t
  · simp only [register, if_pos hk]
    apply noEmptyLists_setKey hm
    by_cases hmem : h ∈ lookupList s.handlers t
    · simp only [if_pos hmem]
      exact fun hc => List.not_mem_nil h (hc ▸ hmem)
    · simp only [if_neg hmem]
      exact fun hc => by simp at hc
  · have hk' : hasKey s.handlers t = false := Bool.eq_false_iff.mpr hk
    have hlu : lookupList (s.handlers ++ [(t, [])]) t = [] := lookupList_append_single hk'
    simp only [register, if_neg hk, hlu, List.not_mem_nil, if_neg, List.nil_append,
      setKey_append_single hk']
    exact noEmptyLists_append_singleton hm (by simp)

theorem noEmptyLists_unregister (s : EngineState H V) (t : String) (h : H)
    (hm : noEmptyLists s.handlers) : noEmptyLists (unregister s t h).handlers := by
  by_cases hk : hasKey s.handlers t
  · simp only [unregister, if_pos hk]
    by_cases he : (if h ∈ lookupList s.handlers t then (lookupList s.handlers t).erase h
        else lookupList s.handlers t).isEmpty
    · simp only [if_pos he]
      exact noEmptyLists_removeKey hm
    · simp only [if_neg he]
      apply noEmptyLists_setKey hm
      intro hc
      exact he (by rw [hc]; rfl)
  · have hk' : hasKey s.handlers t = false := Bool.eq_false_iff.mpr hk
    have hlu : lookupList (s.handlers ++ [(t, [])]) t = [] := lookupList_append_single hk'
    simp only [unregister, if_neg hk, hlu, List.not_mem_nil, if_neg, List.isEmpty_nil,
      if_pos, removeKey_append_single hk']
    exact hm

theorem register_general_handlers (s : EngineState H V) (h : H) :
    (register_general s h).handlers = s.handlers := by
  unfold register_general
  split <;> rfl

theorem unregister_general_handlers (s : EngineState H V) (h : H) :
    (unregister_general s h).handlers = s.handlers := by
  unfold unregister_general
  split <;> rfl

theorem unregister_general_field (s : EngineState H V) (t : String) (h : H) :
    (unregister s t h).general = s.general := by
  simp only [unregister, apply_ite EngineState.general, ite_self]

theorem noEmptyLists_applyOp (s : EngineState H V) (o : Op H)
    (hm : noEmptyLists s.handlers) : noEmptyLists (applyOp s o).handlers := by
  cases o with
  | reg t h => exact noEmptyLists_register s t h hm
  | unreg t h => exact noEmptyLists_unregister s t h hm
  | regGeneral h => rw [applyOp, register_general_handlers]; exact hm
  | unregGeneral h => rw [applyOp, unregister_general_handlers]; exact hm

theorem noEmptyLists_applyOps (ops : List (Op H)) (s : EngineState H V)
    (hm : noEmptyLists s.handlers) : noEmptyLists (applyOps s ops).handlers := by
  induction ops generalizing s with
  | nil => exact hm
  | cons o os ih => exact ih (applyOp s o) (noEmptyLists_applyOp s o hm)

theorem register_of_mem (s : EngineState H V) (t : String) (h : H)
    (hk : hasKey s.handlers t = true) (hmem : h ∈ lookupList s.handlers t) :
    register s t h = s := by
  simp only [register, if_pos hk, if_pos hmem, setKey_lookupList_self]

theorem register_mem (s : EngineState H V) (t : String) (h : H) :
    hasKey (register s t h).handlers t = true ∧
      h ∈ lookupList (register s t h).handlers t := by
  by_cases hk : hasKey s.handlers t
  · simp only [register, if_pos hk]
    refine ⟨(hasKey_setKey _ _ _ _).trans hk, ?_⟩
    rw [lookupList_setKey_self hk]
    by_cases hmem : h ∈ lookupList s.handlers t
    · rw [if_pos hmem]; exact hmem
    · rw [if_neg hmem]; exact List.mem_append_right _ (List.mem_singleton_self h)
  · have hk' : hasKey s.handlers t = false := Bool.eq_false_iff.mpr hk
    have hka : hasKey (s.handlers ++ [(t, [])]) t = true := hasKey_append_single _ _ _
    have hlu : lookupList (s.handlers ++ [(t, [])]) t = [] := lookupList_append_single hk'
    have hnm : ¬h ∈ ([] : List H) := List.not_mem_nil h
    simp only [register, if_neg hk, hlu, if_neg hnm, List.nil_append]
    refine ⟨(hasKey_setKey _ _ _ _).trans hka, ?_⟩
    rw [lookupList_setKey_self hka]
    exact List.mem_singleton_self h

theorem map_pair_filter_not_mem {l : List H} {h : H} (e : Event V)
    (hnm : h ∉ l) :
    ((l.map fun x => (x, e)).filter fun p => p.1 == h) = [] := by
  induction l with
  | nil => rfl
  | cons a as ih =>
    have ha : ¬(a = h) := fun hc => hnm (hc ▸ List.mem_cons_self a as)
    rw [List.map_cons, List.filter_cons_of_neg (by simp [ha]),
      ih (fun hc => hnm (List.mem_cons_of_mem _ hc))]

theorem map_pair_filter_count_one {l : List H} {h : H} (e : Event V)
    (hc : l.count h = 1) :
    ((l.map fun x => (x, e)).filter fun p => p.1 == h) = [(h, e)] := by
  induction l with
  | nil => simp at hc
  | cons a as ih =>
    by_cases ha : a = h
    · subst ha
      have hz : as.count a = 0 := by
        have := hc
        rw [List.count_cons_self] at this
        omega
      have hnm : a ∉ as := List.count_eq_zero.mp hz
      rw [List.map_cons, List.filter_cons_of_pos (by simp),
        map_pair_filter_not_mem e hnm]
    · have hc' : as.count h = 1 := by
        have := hc
        rw [List.count_cons_of_ne (Ne.symm ha)] at this
        exact this
      rw [List.map_cons, List.filter_cons_of_neg (by simp [ha]), ih hc']

theorem processTrace_filter (s : EngineState H V) (e : Event V) (t : String) (h : H)
    (h1 : (lookupList s.handlers t).count h = 1)
    (h2 : ∀ t', t' ≠ t → h ∉ lookupList s.handlers t')
    (h3 : h ∉ s.general) :
    (((processTrace s e).filter fun p => p.1 == h).map Prod.snd) =
      if e.type = t then [e] else [] := by
  have hgen : ((if s.general.isEmpty then []
      else s.general.map fun x => (x, e)).filter fun p => p.1 == h) = [] := by
    by_cases hg : s.general.isEmpty
    · rw [if_pos hg]; rfl
    · rw [if_neg hg]; exact map_pair_filter_not_mem e h3
  by_cases he : e.type = t
  · have hne : lookupList s.handlers t ≠ [] := by
      intro hz; rw [hz] at h1; simp at h1
    have hk : hasKey s.handlers t = true := hasKey_eq_true_of_lookupList_ne_nil hne
    rw [if_pos he]
    simp only [processTrace, he, if_pos hk, List.filter_append, hgen, List.append_nil]
    rw [map_pair_filter_count_one e h1]
    rfl
  · rw [if_neg he]
    have hnm : h ∉ lookupList s.handlers e.type := h2 e.type he
    by_cases hk : hasKey s.handlers e.type
    · simp only [processTrace, if_pos hk, List.filter_append, hgen, List.append_nil]
      rw [map_pair_filter_not_mem e hnm]
      rfl
    · simp only [processTrace, if_neg hk, List.nil_append, hgen]
      rfl

theorem count_pair_map (l : List H) (e : Event V) (h : H) :
    ((l.map fun x => (x, e)).count (h, e)) = l.count h := by
  induction l with
  | nil => rfl
  | cons a as ih =>
    by_cases ha : a = h
    · subst ha
      rw [List.map_cons, List.count_cons_self, List.count_cons_self, ih]
    · have hpair : ¬((a, e) = (h, e)) := fun hc => ha (congrArg Prod.fst hc)
      rw [List.map_cons, List.count_cons_of_ne (Ne.symm hpair),
        List.count_cons_of_ne (Ne.symm ha), ih]

end InvLemmas

section Claims

variable {H V : Type} [DecidableEq H] [DecidableEq V]

/-- **C1.** Within one event's dispatch, `_process` invokes exactly the
handlers registered for the event's type first, in registration order,
then every general handler, in registration order, passing each the same
event object. -/
theorem dispatch_order (s : EngineState H V) (e : Event V) :
    processTrace s e =
      (lookupList s.handlers e.type).map (fun h => (h, e)) ++
        s.general.map (fun h => (h, e)) := by
  unfold processTrace
  by_cases hk : hasKey s.handlers e.type
  · rw [if_pos hk]
    by_cases hg : s.general.isEmpty
    · rw [if_pos hg, List.isEmpty_iff.mp hg]
      simp
    · rw [if_neg hg]
  · rw [if_neg hk, lookupList_eq_nil_of_hasKey_eq_false (Bool.eq_false_iff.mpr hk)]
    by_cases hg : s.general.isEmpty
    · rw [if_pos hg, List.isEmpty_iff.mp hg]
      simp
    · rw [if_neg hg]
      simp

/-- **C2.** After every sequence of register, unregister,
register_general and unregister_general calls on a freshly constructed
engine, every type key present in the per-type handler table maps to a
non-empty handler list: the table never holds an empty list. -/
theorem table_no_empty_lists (ops : List (Op H)) :
    ((applyOps (newEngine H V) ops).handlers.all fun p => !p.2.isEmpty) = true := by
  have hinv := noEmptyLists_applyOps (V := V) ops (newEngine H V)
    (fun p hp => absurd hp (List.not_mem_nil p))
  simp only [List.all_eq_true, Bool.not_eq_true']
  intro p hp
  exact Bool.eq_false_iff.mpr (fun hc => hinv p hp (List.isEmpty_iff.mp hc))

/-- **C3.** Unregistering a handler that is not registered for the given
type — including when the type has no entry at all — is a silent no-op
that leaves the whole state (per-type table and general list included)
exactly unchanged, on any table state satisfying the reachable-state
invariant of C2 (no empty handler lists); and unregister_general of a
handler absent from the general list is likewise a silent no-op.  Each
conjunct carries only its own premises. -/
theorem unregister_absent_noop (s : EngineState H V) (t : String) (h : H) :
    (noEmptyLists s.handlers → h ∉ lookupList s.handlers t → unregister s t h = s) ∧
    (h ∉ s.general → unregister_general s h = s) := by
  refine ⟨fun hinv hmem => ?_, fun hg => ?_⟩
  · by_cases hk : hasKey s.handlers t
    · have hl : lookupList s.handlers t ≠ [] := lookupList_ne_nil_of_hasKey hk hinv
      have hie : (lookupList s.handlers t).isEmpty = false :=
        Bool.eq_false_iff.mpr (fun hc => hl (List.isEmpty_iff.mp hc))
      simp only [unregister, if_pos hk, if_neg hmem, hie, Bool.false_eq_true, if_false,
        setKey_lookupList_self]
    · have hk' : hasKey s.handlers t = false := Bool.eq_false_iff.mpr hk
      have hlu : lookupList (s.handlers ++ [(t, [])]) t = [] := lookupList_append_single hk'
      simp [unregister, if_neg hk, hlu, removeKey_append_single hk']
  · simp only [unregister_general, if_neg hg]

/-- Witness for C3: a concrete engine state — the handler to drop is
present in the general list but not under the requested type, so
unregister is a no-op there, and a fully unknown handler makes
unregister_general a no-op. -/
theorem unregister_absent_noop_witness :
    unregister
        { interval := 1, queue := [], active := false, handlers := [("a", [1])],
          general := [2] : EngineState Nat Nat } "b" 2 =
      { interval := 1, queue := [], active := false, handlers := [("a", [1])],
        general := [2] } ∧
    unregister_general
        { interval := 1, queue := [], active := false, handlers := [("a", [1])],
          general := [2] : EngineState Nat Nat } 0 =
      { interval := 1, queue := [], active := false, handlers := [("a", [1])],
        general := [2] } :=
  ⟨(unregister_absent_noop
      { interval := 1, queue := [], active := false, handlers := [("a", [1])],
        general := [2] : EngineState Nat Nat } "b" 2).1
      (by unfold noEmptyLists; decide) (by decide),
   (unregister_absent_noop
      { interval := 1, queue := [], active := false, handlers := [("a", [1])],
        general := [2] : EngineState Nat Nat } "b" 0).2 (by decide)⟩

/-- **C4.** Registration is idempotent: registering a handler already
present for a type leaves the state unchanged, registering twice equals
registering once (for both the per-type and the general list), and after
a double registration on a fresh engine, dispatching an event of that
type invokes the handler exactly once. -/
theorem register_idempotent (s : EngineState H V) (t : String) (h : H) :
    (h ∈ lookupList s.handlers t → register s t h = s) ∧
    register (register s t h) t h = register s t h ∧
    (h ∈ s.general → register_general s h = s) ∧
    register_general (register_general s h) h = register_general s h ∧
    (processTrace (register (register (newEngine H V) t h) t h) (Event.make t)).count
      (h, Event.make t) = 1 := by
  refine ⟨?_, ?_, ?_, ?_, ?_⟩
  · intro hmem
    have hne : lookupList s.handlers t ≠ [] := fun hc => List.not_mem_nil h (hc ▸ hmem)
    exact register_of_mem s t h (hasKey_eq_true_of_lookupList_ne_nil hne) hmem
  · have hm := register_mem s t h
    exact register_of_mem _ t h hm.1 hm.2
  · intro hmem
    simp only [register_general, if_pos hmem]
  · by_cases hmem : h ∈ s.general
    · simp only [register_general, if_pos hmem]
    · simp only [register_general, if_neg hmem]
      have : h ∈ s.general ++ [h] := List.mem_append_right _ (List.mem_singleton_self h)
      simp only [if_pos this]
  · simp [register, processTrace, newEngine, hasKey, lookupList, setKey, Event.make]

/-- Witness for C4: registering an already-present handler, per type and
general, keeps a concrete state unchanged. -/
theorem register_idempotent_witness :
    register
        { interval := 1, queue := [], active := false, handlers := [("a", [5])],
          general := [7] : EngineState Nat Nat } "a" 5 =
      { interval := 1, queue := [], active := false, handlers := [("a", [5])],
        general := [7] } ∧
    register_general
        { interval := 1, queue := [], active := false, handlers := [("a", [5])],
          general := [7] : EngineState Nat Nat } 7 =
      { interval := 1, queue := [], active := false, handlers := [("a", [5])],
        general := [7] } :=
  ⟨(register_idempotent
      { interval := 1, queue := [], active := false, handlers := [("a", [5])],
        general := [7] } "a" 5).1 (by decide),
   (register_idempotent
      { interval := 1, queue := [], active := false, handlers := [("a", [5])],
        general := [7] : EngineState Nat Nat } "a" 7).2.2.1 (by decide)⟩

/-- **C5.** A handler registered (once) for type `t` only — for no other
type and not as a general handler — is invoked by the dispatch loop
exactly on the events whose type is `t`, in the order they were put,
and never on an event of another type. -/
theorem typed_handler_sees_exactly_its_type (s : EngineState H V) (t : String) (h : H)
    (q : List (Event V))
    (h1 : (lookupList s.handlers t).count h = 1)
    (h2 : ∀ t', t' ≠ t → h ∉ lookupList s.handlers t')
    (h3 : h ∉ s.general) :
    (((runTrace s q).filter fun p => p.1 == h).map Prod.snd) =
      q.filter fun e => e.type = t := by
  induction q with
  | nil => rfl
  | cons e rest ih =>
    simp only [runTrace, List.filter_append, List.map_append, ih]
    rw [processTrace_filter s e t h h1 h2 h3]
    by_cases he : e.type = t
    · rw [if_pos he, List.filter_cons_of_pos (by simp [he])]
      rfl
    · rw [if_neg he, List.filter_cons_of_neg (by simp [he]), List.nil_append]

/-- Witness for C5: handler 7, registered only for type "A", sees
exactly the "A" event of a two-event queue. -/
theorem typed_handler_sees_exactly_its_type_witness :
    ((runTrace
        { interval := 1, queue := [], active := true, handlers := [("A", [7])],
          general := [] : EngineState Nat Nat }
        [{ type := "A", data := none }, { type := "B", data := none }]).filter
          fun p => p.1 == 7).map Prod.snd =
      [{ type := "A", data := none }, { type := "B", data := none }].filter
        fun e => e.type = "A" :=
  typed_handler_sees_exactly_its_type _ "A" 7 _ (by decide)
    (by
      intro t' hne
      have hne' : ¬("A" = t') := fun hc => hne hc.symm
      simp [lookupList, hne'])
    (by decide)

/-- **C6.** One iteration of the timer loop while the engine is active
enqueues exactly one event; its type is the reserved EVENT_TIMER
constant and its payload is the absence value `none`, the default
payload of an event constructed with only a type. -/
theorem timer_enqueues_one_timer_event (s : EngineState H V) (hact : s.active = true) :
    (timerLoopStep s).queue = s.queue ++ [{ type := EVENT_TIMER, data := none }] ∧
    (timerLoopStep s).queue.length = s.queue.length + 1 := by
  constructor
  · simp only [timerLoopStep, if_pos hact, timerStep, Event.make]
  · simp only [timerLoopStep, if_pos hact, timerStep, List.length_append,
      List.length_singleton]

/-- Witness for C6 on an active engine with a one-event queue. -/
theorem timer_enqueues_one_timer_event_witness :
    (timerLoopStep
        { interval := 1, queue := [{ type := "A", data := none }], active := true,
          handlers := [], general := [] : EngineState Nat Nat }).queue =
      [{ type := "A", data := none }] ++ [{ type := EVENT_TIMER, data := none }] :=
  (timer_enqueues_one_timer_event _ rfl).1

/-- **C7.** `put` enqueues unconditionally—its behaviour does not depend
on the active flag and it raises no error—leaving flag, tables and the
rest of the state untouched; while the flag is false the dispatch loop
performs no iteration work, so accumulated events are dispatched only if
the engine is later started. -/
theorem put_unconditional (s : EngineState H V) (e : Event V) :
    put s e = { s with queue := s.queue ++ [e] } ∧
    (put s e).active = s.active ∧
    (put s e).handlers = s.handlers ∧
    (put s e).general = s.general ∧
    (s.active = false → ∀ n, runLoop n s = (s, [])) := by
  refine ⟨rfl, rfl, rfl, rfl, ?_⟩
  intro hact n
  cases n with
  | zero => rfl
  | succ n => simp [runLoop, hact]

/-- Witness for C7: on a stopped engine holding two queued events, the
dispatch loop does nothing over two iterations. -/
theorem put_unconditional_witness :
    runLoop 2
        { interval := 1, queue := [{ type := "A", data := none }, { type := "B", data := none }],
          active := false, handlers := [("A", [7])], general := [] : EngineState Nat Nat } =
      ({ interval := 1, queue := [{ type := "A", data := none }, { type := "B", data := none }],
          active := false, handlers := [("A", [7])], general := [] }, []) :=
  (put_unconditional
      { interval := 1, queue := [{ type := "A", data := none }, { type := "B", data := none }],
        active := false, handlers := [("A", [7])], general := [] : EngineState Nat Nat }
      { type := "A", data := none }).2.2.2.2 rfl 2

/-- **C8.** `stop` clears the active flag; from the stopped state the
dispatch loop invokes no further handler (its trace stays empty) and the
timer loop enqueues no further timer event, however many iterations are
attempted — both loops have terminated. -/
theorem stop_halts_loops (s : EngineState H V) :
    (stop s).active = false ∧
    (∀ n, runLoop n (stop s) = (stop s, [])) ∧
    (∀ n, timerLoop n (stop s) = stop s) := by
  refine ⟨rfl, ?_, ?_⟩
  · intro n
    cases n with
    | zero => rfl
    | succ n => simp [runLoop, stop]
  · intro n
    cases n with
    | zero => rfl
    | succ n => simp [timerLoop, stop]

/-- **C9.** A handler registered both for the event's specific type and
as a general handler is invoked twice for a single dispatched event of
that type: once in the type-specific pass and once in the general pass
(duplicate suppression acts only within each list). -/
theorem dual_registration_invoked_twice (s : EngineState H V) (e : Event V) (h : H)
    (h1 : (lookupList s.handlers e.type).count h = 1)
    (h2 : s.general.count h = 1) :
    (processTrace s e).count (h, e) = 2 := by
  have hne : lookupList s.handlers e.type ≠ [] := by
    intro hz; rw [hz] at h1; simp at h1
  have hk : hasKey s.handlers e.type = true := hasKey_eq_true_of_lookupList_ne_nil hne
  have hgne : s.general ≠ [] := by
    intro hz; rw [hz] at h2; simp at h2
  have hgie : s.general.isEmpty = false :=
    Bool.eq_false_iff.mpr (fun hc => hgne (List.isEmpty_iff.mp hc))
  simp only [processTrace, if_pos hk, hgie, Bool.false_eq_true, if_false, List.count_append]
  rw [count_pair_map, count_pair_map, h1, h2]

/-- Witness for C9: handler 7 registered for type "A" and as a general
handler is invoked twice on one "A" event. -/
theorem dual_registration_invoked_twice_witness :
    (processTrace
        { interval := 1, queue := [], active := true, handlers := [("A", [7])],
          general := [7] : EngineState Nat Nat }
        { type := "A", data := none }).count (7, { type := "A", data := none }) = 2 :=
  dual_registration_invoked_twice _ { type := "A", data := none } 7 (by decide) (by decide)

/-- **C10.** Frame conditions of the subscription API: register and
unregister leave every other type's handler list and the general list
unchanged, and register_general / unregister_general leave the whole
per-type table unchanged. -/
theorem subscription_frame (s : EngineState H V) (t t' : String) (h : H) (hne : t' ≠ t) :
    lookupList (register s t h).handlers t' = lookupList s.handlers t' ∧
    lookupList (unregister s t h).handlers t' = lookupList s.handlers t' ∧
    (register s t h).general = s.general ∧
    (unregister s t h).general = s.general ∧
    (register_general s h).handlers = s.handlers ∧
    (unregister_general s h).handlers = s.handlers := by
  refine ⟨?_, ?_, rfl, ?_, register_general_handlers s h, unregister_general_handlers s h⟩
  · by_cases hk : hasKey s.handlers t
    · simp only [register, if_pos hk, lookupList_setKey_ne hne]
    · simp only [register, if_neg hk, lookupList_setKey_ne hne, lookupList_append_ne hne]
  · by_cases hk : hasKey s.handlers t
    · by_cases hie : (if h ∈ lookupList s.handlers t then (lookupList s.handlers t).erase h
          else lookupList s.handlers t).isEmpty
      · simp only [unregister, if_pos hk, if_pos hie, lookupList_removeKey_ne hne]
      · simp only [unregister, if_pos hk, if_neg hie, lookupList_setKey_ne hne]
    · have hk' : hasKey s.handlers t = false := Bool.eq_false_iff.mpr hk
      have hlu : lookupList (s.handlers ++ [(t, [])]) t = [] := lookupList_append_single hk'
      simp only [unregister, if_neg hk, hlu]
      simp [lookupList_removeKey_ne hne, lookupList_append_ne hne]
  · exact unregister_general_field s t h

/-- Witness for C10 at type "a", other type "b", on a concrete state. -/
theorem subscription_frame_witness :
    lookupList
        (register
          { interval := 1, queue := [], active := false, handlers := [("a", [3])],
            general := [4] : EngineState Nat Nat } "a" 5).handlers "b" =
      lookupList
        ({ interval := 1, queue := [], active := false, handlers := [("a", [3])],
            general := [4] : EngineState Nat Nat }).handlers "b" :=
  (subscription_frame
      { interval := 1, queue := [], active := false, handlers := [("a", [3])],
        general := [4] : EngineState Nat Nat } "a" "b" 5 (by decide)).1

end Claims

end VnpyEvent
